import Mathlib

/-!
Verification of `src/nixpacks/builder/docker/incremental_cache.rs`.

The Rust module manages an incremental build cache: it resets a pair of
cache directories on disk, imports uploaded tar files into a Docker image,
checks whether an image tag exists in a registry, and generates Dockerfile
and shell command fragments that move cached directories into and out of a
build container.

The pure string-processing functions are embedded directly over `List Char`
(so that Rust's `str::replace` and `str::split` semantics are explicit);
the filesystem-manipulating `IncrementalCacheDirs::create` is embedded as a
function on an abstract filesystem state (a list of existing paths), and
the process-spawning functions are embedded as functions parameterised by
the outcome of each external process invocation.
-/

set_option maxRecDepth 8192

namespace IncrementalCache

/-- Embedding of Rust `dir.replace('~', "/root")` (from
`get_copy_to_image_command` line 134 and `get_copy_from_image_command`
line 163): every occurrence of the character `~` is replaced by the string
`/root`. -/
def sanitizeChars : List Char → List Char
  | [] => []
  | c :: cs =>
    if c = '~' then '/' :: 'r' :: 'o' :: 'o' :: 't' :: sanitizeChars cs
    else c :: sanitizeChars cs

/-- String-level wrapper for `sanitizeChars`, the `~` → `/root`
normalization shared by both fragment generators. -/
def sanitize (s : String) : String := ⟨sanitizeChars s.data⟩

/-- Prepend a character to the first piece of a split result. -/
def consHead (c : Char) : List (List Char) → List (List Char)
  | [] => [[c]]
  | p :: ps => (c :: p) :: ps

/-- Embedding of Rust `str::split('/')`: splits at every `/`, keeping empty
pieces (so `"".split('/') = [""]` and `"/a".split('/') = ["", "a"]`). -/
def splitSlash : List Char → List (List Char)
  | [] => [[]]
  | c :: cs =>
    if c = '/' then [] :: splitSlash cs
    else consHead c (splitSlash cs)

/-- Embedding of Rust `.collect::<Vec<_>>().join("/")`: intercalate the
pieces with `/`. -/
def joinSlash : List (List Char) → List Char
  | [] => []
  | [p] => p
  | p :: q :: ps => p ++ '/' :: joinSlash (q :: ps)

/-- The source-path transformation of `get_copy_to_image_command`
(lines 135-140): split the normalized path on `/`, drop empty segments,
suffix each remaining segment with `?`, and rejoin with `/`. -/
def optionalize (s : String) : String :=
  ⟨joinSlash (((splitSlash s.data).filter (fun p => !p.isEmpty)).map
    (fun p => p ++ ['?']))⟩

/-- Embedding of Rust `sanitized_dir.replace('/', "%2f")` (line 164). -/
def percentEncodeChars : List Char → List Char
  | [] => []
  | c :: cs =>
    if c = '/' then '%' :: '2' :: 'f' :: percentEncodeChars cs
    else c :: percentEncodeChars cs

/-- String-level wrapper for `percentEncodeChars`. -/
def percentEncode (s : String) : String := ⟨percentEncodeChars s.data⟩

/-- Embedding of `super::file_server::FileServerConfig` as used by this
module (only `upload_url` and `access_token` are read; the other fields are
carried for fidelity to the struct used in the Rust test). -/
structure FileServerConfig where
  listen_to_ip : String
  port : Nat
  access_token : String
  upload_url : String
  files_dir : String
deriving DecidableEq, Repr

/-- The single COPY instruction emitted per directory by
`get_copy_to_image_command` (lines 133-144). -/
def copyToLine (incremental_cache_image : String) (dir : String) : String :=
  let target_cache_dir := sanitize dir
  let target_cache_dir_optional := optionalize target_cache_dir
  "COPY --from=" ++ incremental_cache_image ++ " " ++
    target_cache_dir_optional ++ " " ++ target_cache_dir

/-- Embedding of `IncrementalCache::get_copy_to_image_command`
(lines 123-147): `None` cache directories default to the empty list, an
empty list short-circuits to `[]`, otherwise one COPY line per directory
(the Rust `flat_map` produces a singleton vector per directory). -/
def get_copy_to_image_command (cache_directories : Option (List String))
    (incremental_cache_image : String) : List String :=
  let dirs := cache_directories.getD []
  if dirs.isEmpty then []
  else dirs.flatMap (fun dir => [copyToLine incremental_cache_image dir])

/-- The three guarded shell lines emitted per directory by
`get_copy_from_image_command` (lines 162-172): archive, upload, remove. -/
def copyFromLines (server_config : FileServerConfig) (dir : String) :
    List String :=
  let sanitized_dir := sanitize dir
  let compressed_file_name := percentEncode sanitized_dir ++ ".tar"
  [ "if [ -d \"" ++ sanitized_dir ++ "\" ]; then tar -cf " ++
      compressed_file_name ++ " " ++ sanitized_dir ++ "; fi;",
    "if [ -d \"" ++ sanitized_dir ++ "\" ]; then curl -v -T " ++
      compressed_file_name ++ " " ++ server_config.upload_url ++
      " --header \"t:" ++ server_config.access_token ++
      "\" --retry 3 --retry-all-errors; fi;",
    "if [ -d \"" ++ sanitized_dir ++ "\" ]; then rm -rf " ++
      sanitized_dir ++ "; fi" ]

/-- Embedding of `IncrementalCache::get_copy_from_image_command`
(lines 150-175): returns `[]` when the directory list is empty or absent or
no file-server config is supplied; otherwise three guarded lines per
directory. -/
def get_copy_from_image_command (cache_directories : Option (List String))
    (file_server_config : Option FileServerConfig) : List String :=
  let container_dirs := cache_directories.getD []
  if container_dirs.isEmpty || file_server_config.isNone then []
  else
    match file_server_config with
    | none => []
    | some server_config => container_dirs.flatMap (copyFromLines server_config)

/-! ### Filesystem model for `IncrementalCacheDirs::create`

A filesystem state is the list of existing paths, a path being the list of
its name components.  `fs::metadata(p).is_ok()` is modelled as membership,
`fs::remove_dir_all(p)` removes `p` and every path below it, and
`fs::create_dir_all(p)` makes `p` and all its ancestors exist.  IO errors
are not modelled: the claims quantify over runs in which `create`
succeeds. -/

/-- A filesystem path, as its list of name components. -/
abbrev Path := List String

/-- Model of `fs::metadata(p).is_ok()`: the path exists. -/
def pathExists (fs : List Path) (p : Path) : Bool := fs.contains p

/-- Model of `fs::remove_dir_all(p)`: `p` and everything below it cease to
exist. -/
def removeDirAll (fs : List Path) (p : Path) : List Path :=
  fs.filter (fun q => ! p.isPrefixOf q)

/-- One `if fs::metadata(p).is_ok() { fs::remove_dir_all(p)? }` block of
`IncrementalCacheDirs::create` (lines 44-63 contain three of these). -/
def condRemove (fs : List Path) (p : Path) : List Path :=
  if pathExists fs p then removeDirAll fs p else fs

/-- All prefixes of a path, i.e. the path together with its ancestors. -/
def prefixesOf : Path → List Path
  | [] => [[]]
  | x :: xs => [] :: (prefixesOf xs).map (fun q => x :: q)

/-- Model of `fs::create_dir_all(p)`: `p` and all its ancestors exist
afterwards (existing paths are untouched). -/
def createDirAll (fs : List Path) (p : Path) : List Path :=
  prefixesOf p ++ fs

/-- `self.image_dir`, i.e. `<root>/image` (lines 30, 14). -/
def imageDirOf (root : Path) : Path := root ++ ["image"]

/-- `self.uploads_dir`, i.e. `<root>/uploads` (lines 31, 13). -/
def uploadsDirOf (root : Path) : Path := root ++ ["uploads"]

/-- Embedding of `IncrementalCacheDirs::create` (lines 41-70), with
`root` standing for `out_dir.get_absolute_path("incremental-cache")`:
remove the cache root, the image dir and the uploads dir if they exist,
then create the image dir and the uploads dir. -/
def createDirs (root : Path) (fs : List Path) : List Path :=
  let fs1 := condRemove fs root
  let fs2 := condRemove fs1 (imageDirOf root)
  let fs3 := condRemove fs2 (uploadsDirOf root)
  createDirAll (createDirAll fs3 (imageDirOf root)) (uploadsDirOf root)

/-- Well-formedness of a filesystem state: every ancestor of an existing
path exists.  Every reachable state of a real filesystem satisfies this. -/
def prefixClosed (fs : List Path) : Bool :=
  fs.all (fun q => (prefixesOf q).all (fun r => fs.contains r))

/-! ### Process model for `create_image` and `is_image_exists` -/

/-- Outcome of one `docker import` invocation in `create_image`
(lines 87-97): the spawn itself can fail (`spawn()?`), or the process runs
and exits with a success flag (`result.success()`). -/
inductive ImportOutcome
  | spawnErr
  | exited (success : Bool)
deriving DecidableEq, Repr

/-- Embedding of `IncrementalCache::create_image` (lines 75-102) over the
list of files found in the uploads directory, parameterised by the outcome
`run f` of the `docker import <f> <tag>` invocation for each file.  Returns
the Rust function's result together with the list of files for which an
invocation of the importer was actually made, in order. -/
def create_image (run : String → ImportOutcome) :
    List String → Except String Unit × List String
  | [] => (Except.ok (), [])
  | f :: fs =>
    match run f with
    | ImportOutcome.spawnErr => (Except.error "spawn error", [f])
    | ImportOutcome.exited true =>
      let r := create_image run fs
      (r.1, f :: r.2)
    | ImportOutcome.exited false =>
      (Except.error "Creating incremental cache image failed", [f])

/-- Outcome of the `docker manifest inspect` invocation in
`is_image_exists` (lines 106-117): the spawn can fail, the wait can fail,
or the process completes with an exit-success flag and some (discarded,
`Stdio::null()`) stdout and stderr content. -/
inductive ProcOutcome
  | spawnFail (msg : String)
  | waitFail (msg : String)
  | completed (success : Bool) (stdout stderr : String)
deriving DecidableEq, Repr

/-- Embedding of `IncrementalCache::is_image_exists` (lines 105-120),
parameterised by the outcome of running `docker manifest inspect <tag>`:
spawn or wait failure becomes `Err`, otherwise `Ok(result.success())`. -/
def is_image_exists (proc : String → ProcOutcome) (image_tag : String) :
    Except String Bool :=
  match proc image_tag with
  | ProcOutcome.spawnFail e => Except.error e
  | ProcOutcome.waitFail e =>
    Except.error ("Check incremental cache image exists in registry: " ++ e)
  | ProcOutcome.completed s _ _ => Except.ok s

/-! ### Lemmas about the filesystem model -/

lemma pathExists_iff {fs : List Path} {p : Path} :
    pathExists fs p = true ↔ p ∈ fs := by
  simp [pathExists, List.contains]

lemma mem_removeDirAll {fs : List Path} {p q : Path} :
    q ∈ removeDirAll fs p ↔ q ∈ fs ∧ ¬ p <+: q := by
  simp only [removeDirAll, List.mem_filter, Bool.not_eq_true',
    ← Bool.not_eq_true, List.isPrefixOf_iff_prefix]

lemma mem_condRemove {fs : List Path} {p q : Path} :
    q ∈ condRemove fs p ↔ q ∈ fs ∧ (p ∈ fs → ¬ p <+: q) := by
  unfold condRemove
  by_cases h : pathExists fs p = true
  · have hp : p ∈ fs := pathExists_iff.mp h
    simp [h, mem_removeDirAll, hp]
  · have hp : p ∉ fs := fun hmem => h (pathExists_iff.mpr hmem)
    simp [h, hp]

lemma mem_prefixesOf {p q : Path} : q ∈ prefixesOf p ↔ q <+: p := by
  induction p generalizing q with
  | nil => simp [prefixesOf]
  | cons x xs ih =>
    cases q with
    | nil => simp [prefixesOf]
    | cons y ys =>
      simp only [prefixesOf, List.mem_cons, List.mem_map,
        List.cons_prefix_cons]
      constructor
      · rintro (hc | ⟨r, hr, hEq⟩)
        · exact absurd hc (by simp)
        · injection hEq with h1 h2
          subst h1
          subst h2
          exact ⟨rfl, ih.mp hr⟩
      · rintro ⟨rfl, hpre⟩
        exact Or.inr ⟨ys, ih.mpr hpre, rfl⟩

lemma mem_createDirAll {fs : List Path} {p q : Path} :
    q ∈ createDirAll fs p ↔ q <+: p ∨ q ∈ fs := by
  simp [createDirAll, mem_prefixesOf]

lemma mem_createDirs {root : Path} {fs : List Path} {q : Path} :
    q ∈ createDirs root fs ↔
      q <+: uploadsDirOf root ∨ q <+: imageDirOf root ∨
        q ∈ condRemove (condRemove (condRemove fs root) (imageDirOf root))
          (uploadsDirOf root) := by
  simp [createDirs, mem_createDirAll, or_assoc]

lemma prefixClosed_mem {fs : List Path} (h : prefixClosed fs = true)
    {q r : Path} (hq : q ∈ fs) (hr : r <+: q) : r ∈ fs := by
  unfold prefixClosed at h
  rw [List.all_eq_true] at h
  have h2 := h q hq
  rw [List.all_eq_true] at h2
  exact pathExists_iff.mp (h2 r (mem_prefixesOf.mpr hr))

lemma mem_cleared_of_fs1 {root : Path} {fs : List Path}
    (h1 : ∀ x, x ∈ condRemove fs root ↔ x ∈ fs ∧ ¬ root <+: x) (q : Path) :
    q ∈ condRemove (condRemove (condRemove fs root) (imageDirOf root))
        (uploadsDirOf root) ↔ q ∈ fs ∧ ¬ root <+: q := by
  have himg : imageDirOf root ∉ condRemove fs root := by
    rw [h1]
    rintro ⟨-, hno⟩
    exact hno (List.prefix_append root ["image"])
  have h2 : ∀ x, x ∈ condRemove (condRemove fs root) (imageDirOf root) ↔
      x ∈ condRemove fs root := by
    intro x
    rw [mem_condRemove]
    simp [himg]
  have hup : uploadsDirOf root ∉
      condRemove (condRemove fs root) (imageDirOf root) := by
    rw [h2, h1]
    rintro ⟨-, hno⟩
    exact hno (List.prefix_append root ["uploads"])
  rw [mem_condRemove]
  simp [hup, h2, h1]

lemma mem_cleared_closed {root : Path} {fs : List Path}
    (h : prefixClosed fs = true) (q : Path) :
    q ∈ condRemove (condRemove (condRemove fs root) (imageDirOf root))
        (uploadsDirOf root) ↔ q ∈ fs ∧ ¬ root <+: q := by
  refine mem_cleared_of_fs1 (fun x => ?_) q
  rw [mem_condRemove]
  constructor
  · rintro ⟨hx, himp⟩
    exact ⟨hx, fun hpre => himp (prefixClosed_mem h hx hpre) hpre⟩
  · rintro ⟨hx, hnp⟩
    exact ⟨hx, fun _ => hnp⟩

lemma mem_cleared_of_root {root : Path} {fs : List Path}
    (hroot : root ∈ fs) (q : Path) :
    q ∈ condRemove (condRemove (condRemove fs root) (imageDirOf root))
        (uploadsDirOf root) ↔ q ∈ fs ∧ ¬ root <+: q := by
  refine mem_cleared_of_fs1 (fun x => ?_) q
  rw [mem_condRemove]
  constructor
  · rintro ⟨hx, himp⟩
    exact ⟨hx, himp hroot⟩
  · rintro ⟨hx, hnp⟩
    exact ⟨hx, fun _ => hnp⟩

lemma mem_createDirs_closed {root : Path} {fs : List Path}
    (h : prefixClosed fs = true) (q : Path) :
    q ∈ createDirs root fs ↔
      q <+: uploadsDirOf root ∨ q <+: imageDirOf root ∨
        (q ∈ fs ∧ ¬ root <+: q) := by
  rw [mem_createDirs, mem_cleared_closed h]

lemma root_mem_createDirs {root : Path} {fs : List Path} :
    root ∈ createDirs root fs := by
  rw [mem_createDirs]
  exact Or.inl (List.prefix_append root ["uploads"])

lemma eq_of_prefixes_both_ways {p q : Path} (h1 : p <+: q) (h2 : q <+: p) :
    q = p :=
  h2.eq_of_length (Nat.le_antisymm h2.length_le h1.length_le)

/-! ### Lemmas about the string helpers -/

lemma flatMap_singleton_eq_map {α β : Type} (g : α → β) (l : List α) :
    l.flatMap (fun a => [g a]) = l.map g := by
  induction l with
  | nil => rfl
  | cons a l ih => simp [List.flatMap_cons, ih]

lemma not_mem_consHead {c x : Char} (hx : x ≠ c) {ps : List (List Char)}
    (h : ∀ q ∈ ps, x ∉ q) : ∀ p ∈ consHead c ps, x ∉ p := by
  cases ps with
  | nil =>
    intro p hp
    simp only [consHead, List.mem_singleton] at hp
    subst hp
    simp [hx]
  | cons q qs =>
    intro p hp
    simp only [consHead, List.mem_cons] at hp
    rcases hp with rfl | hp
    · intro hm
      rcases List.mem_cons.mp hm with rfl | hm
      · exact hx rfl
      · exact h q (List.mem_cons_self q qs) hm
    · exact h p (List.mem_cons_of_mem q hp)

lemma not_slash_mem_splitSlash :
    ∀ (cs : List Char), ∀ p ∈ splitSlash cs, '/' ∉ p := by
  intro cs
  induction cs with
  | nil =>
    intro p hp
    simp only [splitSlash, List.mem_singleton] at hp
    subst hp
    simp
  | cons c cs ih =>
    intro p hp
    simp only [splitSlash] at hp
    by_cases hc : c = '/'
    · rw [if_pos hc] at hp
      rcases List.mem_cons.mp hp with rfl | hp
      · simp
      · exact ih p hp
    · rw [if_neg hc] at hp
      exact not_mem_consHead (fun hEq => hc hEq.symm) ih p hp

lemma joinSlash_head {ps : List (List Char)}
    (h : ∀ p ∈ ps, p ≠ [] ∧ p.head? ≠ some '/') :
    (joinSlash ps).head? ≠ some '/' := by
  cases ps with
  | nil => simp [joinSlash]
  | cons p qs =>
    have hp := h p (List.mem_cons_self p qs)
    cases qs with
    | nil => simpa [joinSlash] using hp.2
    | cons q rs =>
      simp only [joinSlash]
      cases p with
      | nil => exact absurd rfl hp.1
      | cons a as => simpa using hp.2

lemma optionalize_head_ne_slash (s : String) :
    (optionalize s).data.head? ≠ some '/' := by
  apply joinSlash_head
  intro p hp
  simp only [List.mem_map, List.mem_filter] at hp
  obtain ⟨q, ⟨hq, hqne⟩, rfl⟩ := hp
  have hnoslash := not_slash_mem_splitSlash _ q hq
  have hqnil : q ≠ [] := by simpa using hqne
  refine ⟨by simp, ?_⟩
  cases q with
  | nil => exact absurd rfl hqnil
  | cons a as =>
    simp only [List.cons_append, List.head?_cons]
    intro hEq
    injection hEq with h1
    subst h1
    exact hnoslash (List.mem_cons_self _ _)

lemma sanitize_head_slash {s : String} (h : s.data.head? = some '/') :
    (sanitize s).data.head? = some '/' := by
  unfold sanitize
  cases hs : s.data with
  | nil => rw [hs] at h; simp at h
  | cons c cs =>
    rw [hs] at h
    simp only [List.head?_cons, Option.some_inj] at h
    subst h
    simp [sanitizeChars]

lemma sanitize_tilde_head {s : String} (h : s.data.head? = some '~') :
    "/root".data <+: (sanitize s).data := by
  unfold sanitize
  cases hs : s.data with
  | nil => rw [hs] at h; simp at h
  | cons c cs =>
    rw [hs] at h
    simp only [List.head?_cons, Option.some_inj] at h
    subst h
    have hdata : "/root".data = ['/', 'r', 'o', 'o', 't'] := rfl
    rw [hdata]
    simp [sanitizeChars, List.cons_prefix_cons]

/-! ### Claim theorems -/

/-- Claim C1, counterexample: the directory `"a~"` contains `~`, but the
normalized path the generators produce for it is `a/root`, which does not
begin with `/root` (Rust `str::replace('~', "/root")` substitutes at every
position, not only a leading one). -/
theorem tilde_normalization_counterexample :
    '~' ∈ "a~".data ∧
    sanitize "a~" = "a/root" ∧
    ¬ ("/root".data <+: (sanitize "a~").data) ∧
    get_copy_to_image_command (some ["a~"]) "img" =
      ["COPY --from=img a?/root? a/root"] := by
  refine ⟨by decide, by decide, by decide, by decide⟩

/-- Claim C1, amended: for every input directory path that BEGINS with `~`,
the `~`→`/root` normalization shared by both fragment generators yields a
path beginning with `/root`, and the copy-to instruction for such a
directory uses that normalized path as its destination. -/
theorem tilde_leading_normalizes_to_root (dir : String)
    (h : dir.data.head? = some '~') :
    "/root".data <+: (sanitize dir).data ∧
    ∀ img, get_copy_to_image_command (some [dir]) img =
      ["COPY --from=" ++ img ++ " " ++ optionalize (sanitize dir) ++ " " ++
        sanitize dir] := by
  refine ⟨sanitize_tilde_head h, fun img => ?_⟩
  simp [get_copy_to_image_command, copyToLine]

/-- Witness for the amended C1 at the concrete directory `~/.cache`. -/
theorem tilde_leading_normalizes_to_root_witness :
    "/root".data <+: (sanitize "~/.cache").data ∧
    ∀ img, get_copy_to_image_command (some ["~/.cache"]) img =
      ["COPY --from=" ++ img ++ " " ++ optionalize (sanitize "~/.cache") ++
        " " ++ sanitize "~/.cache"] :=
  tilde_leading_normalizes_to_root "~/.cache" (by decide)

/-- Claim C2: for every non-empty directory list, `get_copy_to_image_command`
emits exactly one `COPY --from=<imageRef> <source> <destination>` line per
directory, where the source is the `~`-normalized path split on `/` with
empty segments dropped, each segment suffixed `?` and the segments rejoined
with `/`, and the destination is the `~`-normalized path unchanged; on
`./parent_dir/child_dir` and `docker.io/library/test-image` the output is
exactly the single line of the Rust unit test. -/
theorem copy_to_image_command_shape (dirs : List String) (img : String)
    (h : dirs ≠ []) :
    get_copy_to_image_command (some dirs) img =
      dirs.map (fun dir =>
        "COPY --from=" ++ img ++ " " ++
          String.mk (joinSlash (((splitSlash (sanitize dir).data).filter
            (fun p => !p.isEmpty)).map (fun p => p ++ ['?']))) ++ " " ++
          sanitize dir) ∧
    get_copy_to_image_command (some ["./parent_dir/child_dir"])
      "docker.io/library/test-image" =
      ["COPY --from=docker.io/library/test-image .?/parent_dir?/child_dir? ./parent_dir/child_dir"] := by
  constructor
  · have hne : dirs.isEmpty = false := by simpa using h
    simp [get_copy_to_image_command, hne, flatMap_singleton_eq_map,
      copyToLine, optionalize]
  · decide

/-- Witness for C2 at the directory list `["~/cache"]` and image `img2`. -/
theorem copy_to_image_command_shape_witness :
    get_copy_to_image_command (some ["~/cache"]) "img2" =
      ["COPY --from=img2 root?/cache? /root/cache"] := by
  rw [(copy_to_image_command_shape ["~/cache"] "img2" (by decide)).1]
  decide

/-- Claim C3: for every non-empty directory list and present file-server
config, `get_copy_from_image_command` emits per directory, in order, an
archive line (filename: `/` replaced by `%2f`, suffix `.tar`), an upload
line (configured URL, header `t:<access_token>`, retry count 3) and a
removal line, each guarded by the same existence test on the normalized
directory; on the Rust unit test's inputs the archive filename is
`.%2fparent_dir%2fchild_dir.tar` and the output is its three lines. -/
theorem copy_from_image_command_shape (dirs : List String)
    (cfg : FileServerConfig) (h : dirs ≠ []) :
    get_copy_from_image_command (some dirs) (some cfg) =
      dirs.flatMap (fun dir =>
        [ "if [ -d \"" ++ sanitize dir ++ "\" ]; then tar -cf " ++
            (percentEncode (sanitize dir) ++ ".tar") ++ " " ++
            sanitize dir ++ "; fi;",
          "if [ -d \"" ++ sanitize dir ++ "\" ]; then curl -v -T " ++
            (percentEncode (sanitize dir) ++ ".tar") ++ " " ++
            cfg.upload_url ++ " --header \"t:" ++ cfg.access_token ++
            "\" --retry 3 --retry-all-errors; fi;",
          "if [ -d \"" ++ sanitize dir ++ "\" ]; then rm -rf " ++
            sanitize dir ++ "; fi" ]) ∧
    percentEncode (sanitize "./parent_dir/child_dir") ++ ".tar" =
      ".%2fparent_dir%2fchild_dir.tar" ∧
    get_copy_from_image_command (some ["./parent_dir/child_dir"])
      (some { listen_to_ip := "0.0.0.0", port := 1234,
              access_token := "test_access_token",
              upload_url := "http://test.com/upload",
              files_dir := "./source_dir" }) =
      [ "if [ -d \"./parent_dir/child_dir\" ]; then tar -cf .%2fparent_dir%2fchild_dir.tar ./parent_dir/child_dir; fi;",
        "if [ -d \"./parent_dir/child_dir\" ]; then curl -v -T .%2fparent_dir%2fchild_dir.tar http://test.com/upload --header \"t:test_access_token\" --retry 3 --retry-all-errors; fi;",
        "if [ -d \"./parent_dir/child_dir\" ]; then rm -rf ./parent_dir/child_dir; fi" ] := by
  refine ⟨?_, by decide, by decide⟩
  have hne : dirs.isEmpty = false := by simpa using h
  simp only [get_copy_from_image_command, Option.getD_some, hne,
    Option.isNone_some, Bool.or_self, Bool.false_eq_true, if_false]
  apply congrArg
  funext dir
  simp [copyFromLines, String.append_assoc]

/-- Witness for C3 at the directory list `["~/x"]` and a concrete config. -/
theorem copy_from_image_command_shape_witness :
    get_copy_from_image_command (some ["~/x"])
      (some { listen_to_ip := "ip", port := 1, access_token := "tok",
              upload_url := "http://u", files_dir := "d" }) =
      [ "if [ -d \"/root/x\" ]; then tar -cf %2froot%2fx.tar /root/x; fi;",
        "if [ -d \"/root/x\" ]; then curl -v -T %2froot%2fx.tar http://u --header \"t:tok\" --retry 3 --retry-all-errors; fi;",
        "if [ -d \"/root/x\" ]; then rm -rf /root/x; fi" ] := by
  rw [(copy_from_image_command_shape ["~/x"]
    { listen_to_ip := "ip", port := 1, access_token := "tok",
      upload_url := "http://u", files_dir := "d" } (by decide)).1]
  decide

/-- Claim C4: an explicitly empty directory list yields no copy-to
instructions, and `get_copy_from_image_command` yields nothing when the
directory list is empty or the file-server config is absent, for every
image reference and every config. -/
theorem empty_dirs_empty_commands :
    (∀ img : String, get_copy_to_image_command (some []) img = []) ∧
    (∀ cfg : FileServerConfig,
      get_copy_from_image_command (some []) (some cfg) = []) ∧
    (∀ dirs : Option (List String),
      get_copy_from_image_command dirs none = []) := by
  refine ⟨fun img => rfl, fun cfg => rfl, fun dirs => ?_⟩
  cases dirs with
  | none => rfl
  | some l =>
    cases l with
    | nil => rfl
    | cons a l => rfl

/-- Claim C5: on a well-formed (prefix-closed) filesystem state,
`IncrementalCacheDirs::create` is idempotent — a second run leaves exactly
the set of paths of the first — and after a run the paths at or below the
cache root are exactly the root, its `image` subdirectory and its `uploads`
subdirectory, so both subdirectories exist, are empty, and nothing is left
over from before the call. -/
theorem createDirs_idempotent (root : Path) (fs : List Path) (q : Path)
    (h : prefixClosed fs = true) :
    (q ∈ createDirs root (createDirs root fs) ↔ q ∈ createDirs root fs) ∧
    (root <+: q →
      (q ∈ createDirs root fs ↔
        q = root ∨ q = imageDirOf root ∨ q = uploadsDirOf root)) := by
  have hmem : ∀ x, x ∈ createDirs root fs ↔
      x <+: uploadsDirOf root ∨ x <+: imageDirOf root ∨
        (x ∈ fs ∧ ¬ root <+: x) := fun x => mem_createDirs_closed h x
  have houter : q ∈ createDirs root (createDirs root fs) ↔
      q <+: uploadsDirOf root ∨ q <+: imageDirOf root ∨
        (q ∈ createDirs root fs ∧ ¬ root <+: q) := by
    rw [mem_createDirs, mem_cleared_of_root root_mem_createDirs]
  constructor
  · rw [houter, hmem q]
    have h1 := hmem q
    tauto
  · intro hrq
    rw [hmem q]
    constructor
    · rintro (hup | him | ⟨-, hn⟩)
      · rcases List.prefix_concat_iff.mp hup with hEq | hq
        · exact Or.inr (Or.inr hEq)
        · exact Or.inl (eq_of_prefixes_both_ways hrq hq)
      · rcases List.prefix_concat_iff.mp him with hEq | hq
        · exact Or.inr (Or.inl hEq)
        · exact Or.inl (eq_of_prefixes_both_ways hrq hq)
      · exact absurd hrq hn
    · rintro (rfl | rfl | rfl)
      · exact Or.inl (List.prefix_append q ["uploads"])
      · exact Or.inr (Or.inl List.prefix_rfl)
      · exact Or.inl List.prefix_rfl

/-- Witness for C5 at a concrete prefix-closed filesystem state holding a
stale entry under the cache root. -/
theorem createDirs_idempotent_witness :
    ((["o", "incremental-cache", "stale"] : Path) ∈
        createDirs ["o", "incremental-cache"]
          (createDirs ["o", "incremental-cache"]
            [[], ["o"], ["o", "incremental-cache"],
              ["o", "incremental-cache", "stale"]]) ↔
      (["o", "incremental-cache", "stale"] : Path) ∈
        createDirs ["o", "incremental-cache"]
          [[], ["o"], ["o", "incremental-cache"],
            ["o", "incremental-cache", "stale"]]) ∧
    ((["o", "incremental-cache"] : Path) <+:
        ["o", "incremental-cache", "stale"] →
      ((["o", "incremental-cache", "stale"] : Path) ∈
          createDirs ["o", "incremental-cache"]
            [[], ["o"], ["o", "incremental-cache"],
              ["o", "incremental-cache", "stale"]] ↔
        ["o", "incremental-cache", "stale"] = ["o", "incremental-cache"] ∨
        ["o", "incremental-cache", "stale"] =
          imageDirOf ["o", "incremental-cache"] ∨
        ["o", "incremental-cache", "stale"] =
          uploadsDirOf ["o", "incremental-cache"])) :=
  createDirs_idempotent ["o", "incremental-cache"]
    [[], ["o"], ["o", "incremental-cache"],
      ["o", "incremental-cache", "stale"]]
    ["o", "incremental-cache", "stale"] (by decide)

/-- Claim C6: `create_image` is fail-fast — iterating the uploads
directory's files in order, if some file's import fails to spawn or exits
unsuccessfully, the function returns an error after invoking the import
for exactly the preceding files and that file, attempting none of the
later files; and it returns `Ok` precisely when every file's import
exits successfully. -/
theorem create_image_fail_fast :
    (∀ (run : String → ImportOutcome) (pre post : List String) (f : String),
      (∀ g ∈ pre, run g = ImportOutcome.exited true) →
      run f ≠ ImportOutcome.exited true →
      (∃ e, (create_image run (pre ++ f :: post)).1 = Except.error e) ∧
        (create_image run (pre ++ f :: post)).2 = pre ++ [f]) ∧
    (∀ (run : String → ImportOutcome) (files : List String),
      (create_image run files).1 = Except.ok () ↔
        ∀ g ∈ files, run g = ImportOutcome.exited true) := by
  constructor
  · intro run pre post f hpre hf
    induction pre with
    | nil =>
      cases hrun : run f with
      | spawnErr => simp [create_image, hrun]
      | exited success =>
        cases success with
        | true => exact absurd hrun hf
        | false => simp [create_image, hrun]
    | cons g pre ih =>
      have hg : run g = ImportOutcome.exited true :=
        hpre g (List.mem_cons_self g pre)
      have ih2 := ih (fun x hx => hpre x (List.mem_cons_of_mem g hx))
      simp only [List.cons_append, create_image, hg]
      exact ⟨ih2.1, by simp [ih2.2]⟩
  · intro run files
    induction files with
    | nil => simp [create_image]
    | cons f fs ih =>
      cases hrun : run f with
      | spawnErr => simp [create_image, hrun]
      | exited success =>
        cases success with
        | true => simp [create_image, hrun, ih]
        | false => simp [create_image, hrun]

/-- Witness for C6: with three files where the second import exits
unsuccessfully, the result is an error and only the first two imports are
invoked. -/
theorem create_image_fail_fast_witness :
    (∃ e, (create_image
        (fun s => if s = "b" then ImportOutcome.exited false
          else ImportOutcome.exited true) (["a"] ++ "b" :: ["c"])).1 =
      Except.error e) ∧
    (create_image
        (fun s => if s = "b" then ImportOutcome.exited false
          else ImportOutcome.exited true) (["a"] ++ "b" :: ["c"])).2 =
      ["a"] ++ ["b"] :=
  create_image_fail_fast.1
    (fun s => if s = "b" then ImportOutcome.exited false
      else ImportOutcome.exited true)
    ["a"] ["c"] "b" (by decide) (by decide)

/-- Claim C7: `is_image_exists` returns `Ok(result.success())` whenever the
inspection process runs to completion — `Ok true` exactly on exit success,
`Ok false` on any non-zero exit regardless of the discarded output — while
a spawn failure surfaces as `Err` rather than being folded into the
boolean. -/
theorem is_image_exists_result (proc : String → ProcOutcome) (tag : String) :
    (∀ s out err, proc tag = ProcOutcome.completed s out err →
      is_image_exists proc tag = Except.ok s) ∧
    (is_image_exists proc tag = Except.ok true ↔
      ∃ out err, proc tag = ProcOutcome.completed true out err) ∧
    (∀ m, proc tag = ProcOutcome.spawnFail m →
      is_image_exists proc tag = Except.error m) := by
  refine ⟨?_, ?_, ?_⟩
  · intro s out err hp
    simp [is_image_exists, hp]
  · cases hp : proc tag with
    | spawnFail m => simp [is_image_exists, hp]
    | waitFail m => simp [is_image_exists, hp]
    | completed s out err => simp [is_image_exists, hp]
  · intro m hp
    simp [is_image_exists, hp]

/-- Witness for C7: a process that exits unsuccessfully with noisy output
still yields `Ok false`. -/
theorem is_image_exists_result_witness :
    is_image_exists (fun _ => ProcOutcome.completed false "noise" "errs")
      "some-tag" = Except.ok false :=
  (is_image_exists_result
    (fun _ => ProcOutcome.completed false "noise" "errs") "some-tag").1
    false "noise" "errs" rfl

/-- Claim C8: fragment generation is deterministic — equal inputs to
`get_copy_to_image_command` and to `get_copy_from_image_command` produce
equal output lists (both embeddings are pure functions of their
arguments). -/
theorem fragment_generation_deterministic :
    (∀ (d d' : Option (List String)) (i i' : String), d = d' → i = i' →
      get_copy_to_image_command d i = get_copy_to_image_command d' i') ∧
    (∀ (d d' : Option (List String)) (c c' : Option FileServerConfig),
      d = d' → c = c' →
      get_copy_from_image_command d c = get_copy_from_image_command d' c') :=
  ⟨fun _ _ _ _ hd hi => by rw [hd, hi], fun _ _ _ _ hd hc => by rw [hd, hc]⟩

/-- Witness for C8 at concrete equal inputs. -/
theorem fragment_generation_deterministic_witness :
    get_copy_to_image_command (some ["x"]) "i" =
      get_copy_to_image_command (some ["x"]) "i" :=
  fragment_generation_deterministic.1 (some ["x"]) (some ["x"]) "i" "i"
    rfl rfl

/-- Claim C9: for an input directory path beginning with `/`, the COPY
source produced by `get_copy_to_image_command` does not begin with `/`
(the empty leading segment is filtered out), while the destination keeps
the leading `/` of the normalized path. -/
theorem absolute_dir_relative_source (dir img : String)
    (h : dir.data.head? = some '/') :
    (optionalize (sanitize dir)).data.head? ≠ some '/' ∧
    (sanitize dir).data.head? = some '/' ∧
    get_copy_to_image_command (some [dir]) img =
      ["COPY --from=" ++ img ++ " " ++ optionalize (sanitize dir) ++ " " ++
        sanitize dir] := by
  refine ⟨optionalize_head_ne_slash _, sanitize_head_slash h, ?_⟩
  simp [get_copy_to_image_command, copyToLine]

/-- Witness for C9 at the absolute directory `/var/cache`. -/
theorem absolute_dir_relative_source_witness :
    (optionalize (sanitize "/var/cache")).data.head? ≠ some '/' ∧
    (sanitize "/var/cache").data.head? = some '/' ∧
    get_copy_to_image_command (some ["/var/cache"]) "im" =
      ["COPY --from=" ++ "im" ++ " " ++ optionalize (sanitize "/var/cache") ++
        " " ++ sanitize "/var/cache"] :=
  absolute_dir_relative_source "/var/cache" "im" (by decide)

/-- Claim C10: both generators treat an absent (`None`) cache-directory
list exactly like an empty one, returning `[]` for every image reference
and every config. -/
theorem none_dirs_empty_commands :
    (∀ img : String, get_copy_to_image_command none img = []) ∧
    (∀ cfg : Option FileServerConfig,
      get_copy_from_image_command none cfg = []) :=
  ⟨fun _ => rfl, fun _ => rfl⟩

end IncrementalCache
